import Mathlib

/-!
Verification development for the RAG ingestion pipeline and conversation
state machine of the LangChain example repository.

The JavaScript sources are shallowly embedded as executable Lean
definitions.  External collaborators (the embedding capability, the Chroma
backend, the chat capability) are modelled as explicit environments whose
fields describe the outcome of each call; JavaScript exceptions become
Except values, and side effects on the backend are recorded as event lists.
-/

namespace VectorStoreFactory

/-- Model of a JavaScript document object handed to createChromaStore.
The pageContent field is `some s` when the content is a string and `none`
when it is missing or not a string; metadata plays no role in the factory
and is omitted. -/
structure Doc where
  pageContent : Option String
deriving DecidableEq, Repr

/-- JavaScript String.prototype.trim on the character list of a string. -/
def jsTrim (s : String) : String :=
  ⟨(s.data.dropWhile Char.isWhitespace).reverse.dropWhile Char.isWhitespace |>.reverse⟩

/-- Filter predicate of createChromaStore Task 1: the content is a string
whose trimmed length is positive. -/
def hasContent (d : Doc) : Bool :=
  match d.pageContent with
  | some s => 0 < (jsTrim s).length
  | none => false

/-- Text handed to the embedder for a document (sub.map of pageContent in
the source; only ever applied to documents that passed the content
filter, where the default never fires). -/
def docText (d : Doc) : String :=
  d.pageContent.getD ""

/-- Model of one value returned by embedDocuments for one text: `none`
when the value is not array-like, otherwise the numeric sequence. -/
def EmbedVec := Option (List Int)

/-- The isArrayLike check combined with the positive length check from the
vectors.forEach loop of processDocsWithOptionalPreEmbed. -/
def isValidVec : EmbedVec → Bool
  | some l => 0 < l.length
  | none => false

/-- Environment describing the external collaborators of
createChromaStore: the embedding capability (one vector per text, plus an
injected failure behaviour for whole embedDocuments calls) and the Chroma
backend (injected failure behaviours for fromDocuments and addDocuments,
and the wall clock reading used for the created_at metadata). -/
structure Backend where
  embedOne : String → EmbedVec
  embedFailOn : List String → Option String
  createFailOn : List Doc → Option String
  addFailOn : List Doc → Option String
  now : String

/-- Options object of createChromaStore with the defaults of the source. -/
structure ChromaOptions where
  collectionName : String := "langchain-docs"
  batchSize : Nat := 100
  resetCollection : Bool := true
  embedSubBatchSize : Nat := 32
  preEmbedFilter : Bool := true
deriving Repr

/-- Fuel-bounded slicing: take k elements, recurse on the rest.  The fuel
is only a structural-termination device; with positive k a fuel of the
list length is never exhausted. -/
def chunkListAux (k : Nat) : Nat → List α → List (List α)
  | _, [] => []
  | 0, _ :: _ => []
  | fuel + 1, x :: xs => (x :: xs).take k :: chunkListAux k fuel ((x :: xs).drop k)

/-- Slicing loop shared by the batch loop (slice of filteredDocuments by
batchSize) and the sub-batch loop (slice of docs by embedSubBatchSize).
The JavaScript loop never terminates for a zero step on a nonempty list;
the model returns the empty list there and theorems that need the loop
assume a positive step. -/
def chunkList (k : Nat) (l : List α) : List (List α) :=
  if k = 0 then [] else chunkListAux k l.length l

/-- The vectors.forEach loop: documents paired with their vectors are
pushed to cleaned when the vector is valid, otherwise counted as removed. -/
def collectValid : List (Doc × EmbedVec) → List Doc × Nat
  | [] => ([], 0)
  | (d, v) :: rest =>
    let r := collectValid rest
    if isValidVec v then (d :: r.1, r.2) else (r.1, r.2 + 1)

/-- Sub-batch loop of processDocsWithOptionalPreEmbed.  Returns the list
of text lists passed to embedDocuments (also on failure, where the failing
call was still issued) together with either the wrapped embedding error or
the cleaned documents and the removed count. -/
def preEmbedSubBatches (env : Backend) (batchNumber : Nat) :
    List (List Doc) → Nat → List (List String) × Except String (List Doc × Nat)
  | [], _ => ([], .ok ([], 0))
  | sub :: rest, j =>
    let texts := sub.map docText
    match env.embedFailOn texts with
    | some msg =>
        ([texts],
         .error ("嵌入计算失败（第" ++ toString batchNumber ++ "批 子批" ++
                 toString j ++ "）: " ++ msg))
    | none =>
        let cr := collectValid (sub.zip (texts.map env.embedOne))
        let restRes := preEmbedSubBatches env batchNumber rest (j + 1)
        (texts :: restRes.1,
         match restRes.2 with
         | .error e => .error e
         | .ok cr2 => .ok (cr.1 ++ cr2.1, cr.2 + cr2.2))

/-- processDocsWithOptionalPreEmbed of the source: identity when the
filter is off, otherwise the sub-batch pre-embed filter. -/
def processDocsWithOptionalPreEmbed (env : Backend) (opts : ChromaOptions)
    (batchNumber : Nat) (docs : List Doc) :
    List (List String) × Except String (List Doc × Nat) :=
  if opts.preEmbedFilter then
    preEmbedSubBatches env batchNumber (chunkList opts.embedSubBatchSize docs) 1
  else ([], .ok (docs, 0))

/-- Observable calls against the Chroma backend: Chroma.fromDocuments
(recording the collection name and the collectionMetadata fields) and
vectorStore.addDocuments. -/
inductive StoreEvent where
  | create (collectionName : String) (docs : List Doc) (hnswSpace : String)
      (createdAt : String) (batchSize : Nat)
  | add (docs : List Doc)
deriving DecidableEq, Repr

/-- Documents written by a backend call. -/
def StoreEvent.docs : StoreEvent → List Doc
  | .create _ ds _ _ _ => ds
  | .add ds => ds

/-- Mutable state of the batch loop of createChromaStore: whether
vectorStore is defined, the backend calls issued so far, the running
insertedTotal, the accumulated empty-vector removals and every text list
passed to embedDocuments. -/
structure RunState where
  created : Bool := false
  events : List StoreEvent := []
  insertedTotal : Nat := 0
  removedVecTotal : Nat := 0
  embedCalls : List (List String) := []
deriving DecidableEq, Repr

/-- Error wrapper of the catch block of the batch loop. -/
def batchWrap (n : Nat) (msg : String) : String :=
  "分批处理失败（第" ++ toString n ++ "批）: " ++ msg

/-- Body of one iteration of the batch loop of createChromaStore for the
batch with number n.  A batch whose cleaned list is empty is skipped;
otherwise the batch issues a create call when vectorStore is still
undefined and an add call when it is defined; any embedding, create or add
failure yields the wrapped batch error while the state reached so far is
kept. -/
def stepBatch (env : Backend) (opts : ChromaOptions) (n : Nat) (batch : List Doc)
    (st : RunState) : RunState × Except String Unit :=
  let pr := processDocsWithOptionalPreEmbed env opts n batch
  let st1 := { st with embedCalls := st.embedCalls ++ pr.1 }
  match pr.2 with
  | .error msg => (st1, .error (batchWrap n msg))
  | .ok (cleanedDocs, removedCount) =>
    let st2 := { st1 with removedVecTotal := st1.removedVecTotal + removedCount }
    if cleanedDocs.isEmpty then (st2, .ok ())
    else if st2.created then
      match env.addFailOn cleanedDocs with
      | some msg => (st2, .error (batchWrap n msg))
      | none =>
        ({ st2 with
           events := st2.events ++ [.add cleanedDocs],
           insertedTotal := st2.insertedTotal + cleanedDocs.length }, .ok ())
    else
      match env.createFailOn cleanedDocs with
      | some msg => (st2, .error (batchWrap n msg))
      | none =>
        ({ st2 with
           created := true,
           events := st2.events ++
             [.create opts.collectionName cleanedDocs "cosine" env.now opts.batchSize],
           insertedTotal := st2.insertedTotal + cleanedDocs.length }, .ok ())

/-- Batch loop of createChromaStore over the already-sliced batches,
starting at batch number n: iterate stepBatch, stopping at the first batch
that throws. -/
def runBatches (env : Backend) (opts : ChromaOptions) :
    List (List Doc) → Nat → RunState → RunState × Except String Unit
  | [], _, st => (st, .ok ())
  | batch :: rest, n, st =>
    match stepBatch env opts n batch st with
    | (st2, .ok _) => runBatches env opts rest (n + 1) st2
    | (st2, .error msg) => (st2, .error msg)

/-- Value of a successful createChromaStore call: whether the returned
vectorStore is defined (it is undefined when no batch created the
collection) and the reported insertedTotal and content-filter removal
count. -/
structure ChromaOutcome where
  storeCreated : Bool
  insertedTotal : Nat
  contentRemoved : Nat
deriving DecidableEq, Repr

/-- Full observable behaviour of one createChromaStore call: the backend
side effects (kept even when the call throws) and the outcome, where an
error carries the message of the outer ChromaDB wrapper. -/
structure ChromaRun where
  finalState : RunState
  contentRemoved : Nat
  outcome : Except String ChromaOutcome

/-- createChromaStore of the source.  Task 1 filters empty-content
documents; the resetCollection delete swallows its own errors and touches
no state observed by the claims, so it is not recorded; the batch loop
then processes the slices of the filtered documents. -/
def createChromaStore (env : Backend) (documents : List Doc)
    (opts : ChromaOptions) : ChromaRun :=
  let filteredDocuments := documents.filter hasContent
  let removed := documents.length - filteredDocuments.length
  let batches := chunkList opts.batchSize filteredDocuments
  let r := runBatches env opts batches 1 {}
  { finalState := r.1,
    contentRemoved := removed,
    outcome :=
      match r.2 with
      | .ok _ =>
          .ok { storeCreated := r.1.created,
                insertedTotal := r.1.insertedTotal,
                contentRemoved := removed }
      | .error msg => .error ("ChromaDB 连接失败: " ++ msg) }

/-- A document is live for an environment when the embedder returns a
non-empty array-like vector for its text. -/
def isLive (env : Backend) (d : Doc) : Bool :=
  isValidVec (env.embedOne (docText d))

def cleanedOf (env : Backend) (opts : ChromaOptions) (b : List Doc) : List Doc :=
  if opts.preEmbedFilter then b.filter (isLive env) else b

def removedCountOf (env : Backend) (opts : ChromaOptions) (b : List Doc) : Nat :=
  if opts.preEmbedFilter then (b.filter (fun d => !(isLive env d))).length else 0

def stepEvents (env : Backend) (opts : ChromaOptions) (created : Bool)
    (b : List Doc) : List StoreEvent :=
  if (cleanedOf env opts b).isEmpty then []
  else if created then [.add (cleanedOf env opts b)]
  else [.create opts.collectionName (cleanedOf env opts b) "cosine" env.now opts.batchSize]

def liveBatches (env : Backend) (opts : ChromaOptions) (bs : List (List Doc)) :
    List (List Doc) :=
  (bs.map (cleanedOf env opts)).filter (fun c => !c.isEmpty)

def specEvents (env : Backend) (opts : ChromaOptions) (created : Bool)
    (bs : List (List Doc)) : List StoreEvent :=
  if created then (liveBatches env opts bs).map .add
  else
    match liveBatches env opts bs with
    | [] => []
    | c :: cs =>
        .create opts.collectionName c "cosine" env.now opts.batchSize :: cs.map .add

def GoodState (st : RunState) : Prop :=
  (∀ call ∈ st.embedCalls, ∀ t ∈ call, 0 < (jsTrim t).length) ∧
  (∀ e ∈ st.events, ∀ d ∈ e.docs, hasContent d = true)

def witnessEnv : Backend :=
  { embedOne := fun s => if s = "dead" then some [] else some [1, 2],
    embedFailOn := fun _ => none,
    createFailOn := fun _ => none,
    addFailOn := fun _ => none,
    now := "2026-01-01T00:00:00.000Z" }

def witnessDocs : List Doc :=
  [⟨some "a"⟩, ⟨some "  "⟩, ⟨some "dead"⟩, ⟨some "b"⟩, ⟨none⟩, ⟨some "c"⟩]

def witnessOpts : ChromaOptions :=
  { batchSize := 2, embedSubBatchSize := 1 }

def witnessFailEnv : Backend :=
  { witnessEnv with
    addFailOn := fun ds => if ds.length == 2 then some "boom" else none }

def witnessDeadEnv : Backend :=
  { witnessEnv with embedOne := fun _ => some [] }

/-- Server-side information returned by client.getCollection. -/
structure CollectionInfo where
  count : Option Nat

/-- Model of the optional chroma client attached to a store handle. -/
structure ChromaClientModel where
  getCollection : Except String CollectionInfo

/-- Probe-relevant behaviour of a vector store handle as used by
validateDatabaseIntegrity: the outcome of the trivial similaritySearch
probe and the optional client with its collection lookup. -/
structure StoreHandle where
  similaritySearch : Except String (List Doc)
  client : Option ChromaClientModel
  collectionName : String

/-- actualCount field of a valid report: the server count when present and
positive, otherwise the unknown marker (the JavaScript || turns both 0 and
undefined into the string unknown). -/
inductive ActualCount where
  | known (n : Nat)
  | unknown
deriving DecidableEq, Repr

/-- Result object of validateDatabaseIntegrity. -/
inductive IntegrityReport where
  | valid (expectedCount : Nat) (actualCount : ActualCount)
      (testQuerySuccess : Bool) (timestamp : String)
  | invalid (error : String) (expectedCount : Nat) (timestamp : String)
deriving DecidableEq, Repr

/-- isValid field of a report. -/
def IntegrityReport.isValid : IntegrityReport → Bool
  | .valid _ _ _ _ => true
  | .invalid _ _ _ => false

/-- error field of a report, absent on the valid shape. -/
def IntegrityReport.errorMsg : IntegrityReport → Option String
  | .valid _ _ _ _ => none
  | .invalid e _ _ => some e

/-- expectedCount field, present on both shapes. -/
def IntegrityReport.expected : IntegrityReport → Nat
  | .valid n _ _ _ => n
  | .invalid _ n _ => n

/-- Message of the TypeError raised when validateDatabaseIntegrity is
handed an undefined store, as buildChromaRetriever does after a fully
filtered build; the try block catches it like any other failure. -/
def undefinedStoreMsg : String :=
  "Cannot read properties of undefined (reading similaritySearch)"

/-- validateDatabaseIntegrity of the source: runs the probe query and the
collection lookup inside a try block and always returns a report object;
any failure is converted into a report with isValid false carrying the
message, never rethrown. -/
def validateDatabaseIntegrity (store : Option StoreHandle) (expectedCount : Nat)
    (now : String) : IntegrityReport :=
  match store with
  | none => .invalid undefinedStoreMsg expectedCount now
  | some vs =>
    match vs.similaritySearch with
    | .error e => .invalid e expectedCount now
    | .ok testQuery =>
      match vs.client with
      | none => .valid expectedCount .unknown (decide (0 < testQuery.length)) now
      | some c =>
        match c.getCollection with
        | .error e => .invalid e expectedCount now
        | .ok info =>
          .valid expectedCount
            (match info.count with
             | some n => if n = 0 then .unknown else .known n
             | none => .unknown)
            (decide (0 < testQuery.length)) now

/-- First failing operation of a validateDatabaseIntegrity call, written
independently of the function itself for the claim statement. -/
def validationFailure : Option StoreHandle → Option String
  | none => some undefinedStoreMsg
  | some vs =>
    match vs.similaritySearch with
    | .error e => some e
    | .ok _ =>
      match vs.client with
      | none => none
      | some c =>
        match c.getCollection with
        | .error e => some e
        | .ok _ => none

/-- Outcomes of the connection setup (URL parsing and client construction)
and of the deleteCollection call inside cleanChromaCollection. -/
structure CleanEnv where
  connect : Except String Unit
  deleteResult : Except String Unit

/-- Substring search at every position, the JavaScript
String.prototype.includes on character lists. -/
def subSeqAt (pat : List Char) : List Char → Bool
  | [] => pat.isEmpty
  | c :: rest => pat.isPrefixOf (c :: rest) || subSeqAt pat rest

/-- The JavaScript msg.includes(pat). -/
def strIncludes (s pat : String) : Bool :=
  subSeqAt pat.data s.data

/-- cleanChromaCollection of the source: a connection failure returns
false; a successful delete returns true; a failed delete returns true
exactly when the error message contains does not exist, else false. -/
def cleanChromaCollection (env : CleanEnv) : Bool :=
  match env.connect with
  | .error _ => false
  | .ok _ =>
    match env.deleteResult with
    | .ok _ => true
    | .error msg => if strIncludes msg ("does not exist") then true else false

end VectorStoreFactory

namespace DocumentProcessor

/-- Model of a JavaScript metadata value as classified by sanitizeMetadata:
the four kept primitive shapes, non-null objects and arrays (stringified),
and the dropped shapes undefined (falsy) and function values (truthy). -/
inductive JsVal where
  | str (s : String)
  | num (n : Int)
  | bool (b : Bool)
  | null
  | obj (fields : List (String × JsVal))
  | undef
  | func
deriving Repr

mutual

/-- Rendering of JSON.stringify, modelled to the detail the claims need:
a recursive textual rendering whose only load-bearing property is that it
produces a string.  String escaping of the builtin is not modelled. -/
def jsonStringify : JsVal → String
  | .str s => "\"" ++ s ++ "\""
  | .num n => toString n
  | .bool b => cond b "true" "false"
  | .null => "null"
  | .undef => "null"
  | .func => "null"
  | .obj fields => "\x7b" ++ String.intercalate ", " (jsonFields fields) ++ "\x7d"

/-- Field rendering of JSON.stringify: undefined and function valued
fields are omitted. -/
def jsonFields : List (String × JsVal) → List String
  | [] => []
  | (k, v) :: rest =>
    match v with
    | .undef => jsonFields rest
    | .func => jsonFields rest
    | v => ("\"" ++ k ++ "\": " ++ jsonStringify v) :: jsonFields rest

end

/-- JavaScript object property assignment on an insertion-ordered field
list: an existing key keeps its position and gets the new value, a fresh
key is appended. -/
def setKey : List (String × JsVal) → String → JsVal → List (String × JsVal)
  | [], k, v => [(k, v)]
  | (k0, v0) :: rest, k, v =>
    if k0 = k then (k0, v) :: rest else (k0, v0) :: setKey rest k v

/-- JavaScript property read: the value at the first occurrence of the
key, or undefined. -/
def jsLookup (k : String) : List (String × JsVal) → Option JsVal
  | [] => none
  | (k0, v) :: rest => if k0 = k then some v else jsLookup k rest

/-- Body of the Object.entries forEach of sanitizeMetadata for one value:
primitives are kept, non-null objects are JSON stringified, everything
else (undefined, functions) is dropped. -/
def keepVal : JsVal → Option JsVal
  | .str s => some (.str s)
  | .num n => some (.num n)
  | .bool b => some (.bool b)
  | .null => some .null
  | .obj fields => some (.str (jsonStringify (.obj fields)))
  | .undef => none
  | .func => none

/-- The forEach loop of sanitizeMetadata: walk the entries in order and
assign every kept value into the accumulator object. -/
def copyEntries (acc : List (String × JsVal)) :
    List (String × JsVal) → List (String × JsVal)
  | [] => acc
  | (k, v) :: rest =>
    match keepVal v with
    | some v2 => copyEntries (setKey acc k v2) rest
    | none => copyEntries acc rest

/-- JavaScript truthiness of a metadata value. -/
def jsTruthy : JsVal → Bool
  | .str s => !s.isEmpty
  | .num n => decide (n ≠ 0)
  | .bool b => b
  | .null => false
  | .obj _ => true
  | .undef => false
  | .func => true

/-- Document as seen by sanitizeMetadata: content (a string or absent) and
the metadata object (absent models both undefined and null, which the
falsy guard of the source treats alike). -/
structure JsDoc where
  pageContent : Option String
  metadata : Option (List (String × JsVal))
deriving Repr

/-- The sanitizedMetadata object after the forEach loop: empty when the
metadata is absent or null (the falsy guard), otherwise the copied kept
entries. -/
def baseOf (doc : JsDoc) : List (String × JsVal) :=
  match doc.metadata with
  | some entries => copyEntries [] entries
  | none => []

/-- Value assigned to source: the original source property when truthy,
the string unknown otherwise (the || of the source). -/
def srcValOf (doc : JsDoc) : JsVal :=
  match doc.metadata.bind (jsLookup "source") with
  | some v => if jsTruthy v then v else .str "unknown"
  | none => .str "unknown"

/-- Value assigned to chunk_size: the content length, or 0 when the
content is absent (the || of the source). -/
def chunkSizeOf (doc : JsDoc) : JsVal :=
  .num ((doc.pageContent.map (fun s => (s.length : Int))).getD 0)

/-- The three property assignments that close sanitizeMetadata: source,
chunk_size and processed_at, each keeping the position of an existing
key. -/
def finalizeMeta (base : List (String × JsVal)) (sv csv : JsVal)
    (now : String) : List (String × JsVal) :=
  setKey (setKey (setKey base "source" sv) "chunk_size" csv)
    "processed_at" (.str now)

/-- sanitizeMetadata of the source for a single document, with the wall
clock reading for the processed_at timestamp passed explicitly: copy the
kept entries, then assign source, chunk_size and processed_at. -/
def sanitizeDoc (now : String) (doc : JsDoc) : JsDoc :=
  { doc with
    metadata := some (finalizeMeta (baseOf doc) (srcValOf doc)
      (chunkSizeOf doc) now) }

/-- sanitizeMetadata of the source over a document list. -/
def sanitizeMetadata (now : String) (docs : List JsDoc) : List JsDoc :=
  docs.map (sanitizeDoc now)

/-- Property read through the optional metadata of a document. -/
def metaLookup (k : String) (d : JsDoc) : Option JsVal :=
  d.metadata.bind (jsLookup k)

/-- Two documents agree as the claim reads them: same content and the same
metadata mapping (every key reads the same value). -/
def docEquiv (a b : JsDoc) : Prop :=
  a.pageContent = b.pageContent ∧ ∀ k, metaLookup k a = metaLookup k b

/-- Last kept assignment for a key along an entry list: the value the
forEach loop leaves at that key, ignoring the accumulator. -/
def lastKeep (k : String) : List (String × JsVal) → Option JsVal
  | [] => none
  | (k0, v) :: rest =>
    match lastKeep k rest with
    | some w => some w
    | none => if k0 = k then keepVal v else none

/-- A value the forEach keeps verbatim. -/
def isPrim : JsVal → Bool
  | .str _ => true
  | .num _ => true
  | .bool _ => true
  | .null => true
  | .obj _ => false
  | .undef => false
  | .func => false

end DocumentProcessor

namespace ChatBot

/-- Chat message of the state graph: role and plain string content (every
message on this path carries a string content, so the JSON.stringify
fallback of the token counter never fires in the model). -/
structure Msg where
  role : String
  content : String
deriving DecidableEq, Repr

/-- tokenCounter of the trimmer: join the contents with single spaces and
divide the character count by 3, rounding up (Math.ceil). -/
def estTokens (msgs : List Msg) : Nat :=
  ((String.intercalate " " (msgs.map (fun m => m.content))).length + 2) / 3

/-- Modelled from the spec: the allowPartial step of trimMessages of the
messages library (not in src/).  The largest tail of the content of m that
still fits the budget next to base and rest is kept; nothing is kept when
no character fits. -/
def truncateToFit (budget : Nat) (base rest : List Msg) (m : Msg) : List Msg :=
  let otherLen :=
    (String.intercalate " "
      ((base ++ { m with content := "" } :: rest).map (fun x => x.content))).length
  if 3 * budget ≤ otherLen then []
  else
    let kmax := 3 * budget - otherLen
    if m.content.length ≤ kmax then [m]
    else [{ m with content := ⟨m.content.data.drop (m.content.length - kmax)⟩ }]

/-- Modelled from the spec: the strategy-last body of trimMessages of the
messages library (not in src/): keep the longest fully fitting suffix
(counting the always-kept base), and let the next older message contribute
a partial tail. -/
def fitTail (budget : Nat) (base : List Msg) : List Msg → List Msg
  | [] => []
  | m :: rest =>
    if estTokens (base ++ m :: rest) ≤ budget then m :: rest
    else
      let kept := fitTail budget base rest
      if kept = rest then truncateToFit budget base rest m ++ rest
      else kept

/-- Modelled from the spec: trimMessages of the messages library (not in
src/) as configured by the source: maxTokens budget, strategy last (keep
the most recent), includeSystem (a leading system message is always kept)
and allowPartial (the oldest retained message may be truncated). -/
def trimMessagesModel (maxTokens : Nat) (msgs : List Msg) : List Msg :=
  match msgs with
  | [] => []
  | first :: rest =>
    if first.role = "system" then first :: fitTail maxTokens [first] rest
    else fitTail maxTokens [] msgs

/-- System message of the plain-chat prompt template. -/
def systemPrompt : Msg :=
  { role := "system",
    content := "You are a helpful assistant. Answer clearly and concisely in Chinese." }

/-- The chat capability: invoke takes the ordered prompt messages and
returns the assistant message. -/
structure ChatEnv where
  llm : List Msg → Msg

/-- The model node: trim the thread history to the 1000-token budget,
prepend the prompt template system message, invoke the chat capability.
Returns the reply together with the exact message list the capability
received. -/
def callModel (env : ChatEnv) (stateMessages : List Msg) : Msg × List Msg :=
  let trimmed := trimMessagesModel 1000 stateMessages
  let promptMessages := systemPrompt :: trimmed
  (env.llm promptMessages, promptMessages)

/-- Modelled from the spec: the MemorySaver checkpoint map from thread id
to the persisted message sequence (not in src/): read of a thread. -/
def getThread (threadId : String) : List (String × List Msg) → List Msg
  | [] => []
  | (t0, m0) :: rest => if t0 = threadId then m0 else getThread threadId rest

/-- Modelled from the spec: the MemorySaver checkpoint map (not in src/):
write of a thread, updating in place or appending. -/
def setThread : List (String × List Msg) → String → List Msg → List (String × List Msg)
  | [], t, msgs => [(t, msgs)]
  | (t0, m0) :: rest, t, msgs =>
    if t0 = t then (t0, msgs) :: rest else (t0, m0) :: setThread rest t msgs

/-- Observable outcome of one runTime call: the reply, the checkpoint
store afterwards, and the message list the chat capability received. -/
structure TurnResult where
  reply : String
  store : List (String × List Msg)
  llmInput : List Msg
deriving Repr

/-- runTime of the source for a given thread id: append the user message
to the thread history, run the model node, append the assistant reply to
the thread, return the reply content. -/
def runTime (env : ChatEnv) (store : List (String × List Msg))
    (userText : String) (threadId : String) : TurnResult :=
  let history := getThread threadId store
  let messages := history ++ [{ role := "user", content := userText }]
  let cm := callModel env messages
  { reply := cm.1.content,
    store := setThread store threadId (messages ++ [cm.1]),
    llmInput := cm.2 }

/-- Result object of the retrieval chain invoke. -/
structure RagResult where
  answer : Option String
  output_text : Option String
deriving Repr

/-- The RAG chain collaborator: retrieval plus generation for a user input
and a chat history, which may raise. -/
structure RagEnv where
  ragChain : String → List Msg → Except String RagResult

/-- callRAGModel of the source: take the latest message as the query and
the earlier ones as history; a chain failure is caught and turned into an
assistant message reporting the error inline; reading the last message of
an empty state raises a TypeError outside the try block. -/
def callRAGModel (env : RagEnv) (stateMessages : List Msg) :
    Except String (List Msg) :=
  match stateMessages.getLast? with
  | none => .error "TypeError: cannot read content of undefined"
  | some lastMessage =>
    let userInput := lastMessage.content
    let chatHistory := stateMessages.dropLast
    match env.ragChain userInput chatHistory with
    | .ok result =>
      .ok [{ role := "assistant",
             content := ((result.answer).orElse
               (fun _ => result.output_text)).getD "⚠️ 未找到相关信息" }]
    | .error e =>
      .ok [{ role := "assistant", content := "❌ RAG 检索失败：" ++ e }]

/-- runRAG of the source: append the user message, run the RAG node,
append its messages, return the content of the last message and the new
checkpoint store. -/
def runRAG (env : RagEnv) (store : List (String × List Msg))
    (userText : String) (threadId : String) :
    Except String (String × List (String × List Msg)) :=
  let history := getThread threadId store
  let messages := history ++ [{ role := "user", content := userText }]
  match callRAGModel env messages with
  | .error e => .error e
  | .ok newMsgs =>
    let all := messages ++ newMsgs
    .ok ((all.getLastD { role := "", content := "" }).content,
         setThread store threadId all)

/-- Assistant reply of 3100 characters, enough to overflow the 1000-token
budget of the trimmer on the next turn. -/
def bigReply : Msg :=
  { role := "assistant", content := ⟨List.replicate 3100 (Char.ofNat 97)⟩ }

/-- Fake chat capability always returning the long reply. -/
def bigEnv : ChatEnv :=
  { llm := fun _ => bigReply }

/-- The name turn of the round-trip scenario. -/
def nameMsg : Msg := { role := "user", content := "My name is X" }

/-- The follow-up question of the round-trip scenario. -/
def askMsg : Msg := { role := "user", content := "what is my name" }

/-- The partially truncated long reply the trimmer keeps: exactly the
2984 trailing characters that fit the budget next to the question. -/
def truncReply : Msg :=
  { role := "assistant", content := ⟨List.replicate 2984 (Char.ofNat 97)⟩ }

/-- Fake chat capability with a short fixed reply, used to exercise the
round trip inside the token budget. -/
def smallEnv : ChatEnv :=
  { llm := fun _ => { role := "assistant", content := "Nice to meet you" } }

end ChatBot

-- SECTION: supporting lemmas and claim theorems (vector store factory)

namespace VectorStoreFactory

theorem chunkListAux_flatten {α : Type} (k : Nat) (hk : 0 < k) :
    ∀ (fuel : Nat) (l : List α), l.length ≤ fuel →
      (chunkListAux k fuel l).flatten = l := by
  intro fuel
  induction fuel with
  | zero =>
    intro l hl
    cases l with
    | nil => rfl
    | cons x xs => simp at hl
  | succ f ih =>
    intro l hl
    cases l with
    | nil => rfl
    | cons x xs =>
      simp only [chunkListAux, List.flatten_cons]
      rw [ih ((x :: xs).drop k) (by simp only [List.length_drop, List.length_cons]; simp at hl; omega)]
      exact List.take_append_drop k (x :: xs)

theorem chunkList_flatten {α : Type} (k : Nat) (hk : 0 < k) (l : List α) :
    (chunkList k l).flatten = l := by
  rw [chunkList, if_neg (Nat.pos_iff_ne_zero.mp hk)]
  exact chunkListAux_flatten k hk l.length l le_rfl

theorem length_filter_split {α : Type} (p : α → Bool) (l : List α) :
    (l.filter p).length + (l.filter (fun a => !(p a))).length = l.length := by
  induction l with
  | nil => rfl
  | cons a rest ih =>
    by_cases h : p a <;> simp [List.filter, h, ← ih] <;> omega

theorem sum_length_filter_flatten {α : Type} (p : α → Bool) (bs : List (List α)) :
    ((bs.map (fun b => (b.filter p).length)).sum) = (bs.flatten.filter p).length := by
  induction bs with
  | nil => rfl
  | cons b rest ih => simp [List.filter_append, ih]

theorem collectValid_map (f : Doc → EmbedVec) (sub : List Doc) :
    collectValid (sub.zip (sub.map f)) =
      (sub.filter (fun d => isValidVec (f d)),
       (sub.filter (fun d => !(isValidVec (f d)))).length) := by
  induction sub with
  | nil => rfl
  | cons d rest ih =>
    rw [List.map_cons, List.zip_cons_cons]
    simp only [collectValid, ih]
    by_cases h : isValidVec (f d) <;> simp [List.filter_cons, h]

theorem collectValid_zip (env : Backend) (sub : List Doc) :
    collectValid (sub.zip ((sub.map docText).map env.embedOne)) =
      (sub.filter (isLive env), (sub.filter (fun d => !(isLive env d))).length) := by
  rw [List.map_map]
  exact collectValid_map (env.embedOne ∘ docText) sub

theorem preEmbedSubBatches_ok (env : Backend) (bn : Nat) (subs : List (List Doc))
    (j : Nat) (c : List Doc) (r : Nat)
    (h : (preEmbedSubBatches env bn subs j).2 = .ok (c, r)) :
    c = subs.flatten.filter (isLive env) ∧
    r = (subs.flatten.filter (fun d => !(isLive env d))).length := by
  induction subs generalizing j c r with
  | nil =>
    simp only [preEmbedSubBatches] at h
    cases h
    simp
  | cons sub rest ih =>
    simp only [preEmbedSubBatches] at h
    cases hf : env.embedFailOn (sub.map docText) with
    | some msg => rw [hf] at h; simp at h
    | none =>
      rw [hf] at h
      simp only [collectValid_zip] at h
      cases hr : (preEmbedSubBatches env bn rest (j + 1)).2 with
      | error e => rw [hr] at h; simp at h
      | ok cr2 =>
        rw [hr] at h
        obtain ⟨c2, r2⟩ := cr2
        obtain ⟨h1, h2⟩ := ih (j + 1) c2 r2 hr
        simp only [Except.ok.injEq, Prod.mk.injEq] at h
        obtain ⟨hc, hrr⟩ := h
        subst hc hrr h1 h2
        constructor
        · simp [List.filter_append]
        · simp [List.filter_append]

theorem process_ok (env : Backend) (opts : ChromaOptions)
    (hs : 0 < opts.embedSubBatchSize) (n : Nat) (b : List Doc)
    (c : List Doc) (r : Nat)
    (h : (processDocsWithOptionalPreEmbed env opts n b).2 = .ok (c, r)) :
    c = cleanedOf env opts b ∧ r = removedCountOf env opts b := by
  unfold processDocsWithOptionalPreEmbed at h
  by_cases hp : opts.preEmbedFilter
  · rw [if_pos hp] at h
    obtain ⟨h1, h2⟩ := preEmbedSubBatches_ok env n _ 1 c r h
    rw [chunkList_flatten _ hs] at h1 h2
    simp [cleanedOf, removedCountOf, hp, h1, h2]
  · rw [if_neg hp] at h
    simp only [Except.ok.injEq, Prod.mk.injEq] at h
    simp [cleanedOf, removedCountOf, hp, h.1, h.2]

theorem cleaned_removed_length (env : Backend) (opts : ChromaOptions) (b : List Doc) :
    (cleanedOf env opts b).length + removedCountOf env opts b = b.length := by
  by_cases hp : opts.preEmbedFilter
  · simp only [cleanedOf, removedCountOf, if_pos hp]
    exact length_filter_split (isLive env) b
  · simp [cleanedOf, removedCountOf, hp]

theorem stepBatch_ok (env : Backend) (opts : ChromaOptions)
    (hs : 0 < opts.embedSubBatchSize) (n : Nat) (b : List Doc) (st : RunState)
    (h : (stepBatch env opts n b st).2 = .ok ()) :
    (stepBatch env opts n b st).1.created =
        (st.created || !(cleanedOf env opts b).isEmpty) ∧
    (stepBatch env opts n b st).1.events =
        st.events ++ stepEvents env opts st.created b ∧
    (stepBatch env opts n b st).1.insertedTotal =
        st.insertedTotal + (cleanedOf env opts b).length ∧
    (stepBatch env opts n b st).1.removedVecTotal =
        st.removedVecTotal + removedCountOf env opts b := by
  simp only [stepBatch] at h ⊢
  generalize hgen : (processDocsWithOptionalPreEmbed env opts n b).2 = pr2 at h ⊢
  cases pr2 with
  | error msg => simp at h
  | ok cr =>
    obtain ⟨c, r⟩ := cr
    obtain ⟨hc, hr⟩ := process_ok env opts hs n b c r hgen
    subst hc hr
    dsimp only at h ⊢
    by_cases hce : (cleanedOf env opts b).isEmpty
    · simp [hce, stepEvents, List.isEmpty_iff.mp hce]
    · by_cases hcr : st.created
      · cases haf : env.addFailOn (cleanedOf env opts b) with
        | some msg => simp [hce, hcr, haf] at h
        | none => simp [hce, hcr, haf, stepEvents]
      · cases hcf : env.createFailOn (cleanedOf env opts b) with
        | some msg => simp [hce, hcr, hcf] at h
        | none => simp [hce, hcr, hcf, stepEvents]

theorem stepBatch_error (env : Backend) (opts : ChromaOptions)
    (n : Nat) (b : List Doc) (st : RunState) (msg : String)
    (h : (stepBatch env opts n b st).2 = .error msg) :
    (∃ inner, msg = batchWrap n inner) ∧
    (stepBatch env opts n b st).1.created = st.created ∧
    (stepBatch env opts n b st).1.events = st.events ∧
    (stepBatch env opts n b st).1.insertedTotal = st.insertedTotal := by
  simp only [stepBatch] at h ⊢
  generalize hgen : (processDocsWithOptionalPreEmbed env opts n b).2 = pr2 at h ⊢
  cases pr2 with
  | error m =>
    dsimp only at h ⊢
    exact ⟨⟨m, by simpa using h.symm⟩, rfl, rfl, rfl⟩
  | ok cr =>
    obtain ⟨c, r⟩ := cr
    dsimp only at h ⊢
    by_cases hce : c.isEmpty
    · rw [if_pos hce] at h
      exact Except.noConfusion h
    · by_cases hcr : st.created
      · cases haf : env.addFailOn c with
        | some m =>
          rw [if_neg hce, if_pos hcr, haf] at h
          rw [if_neg hce, if_pos hcr]
          dsimp only at h ⊢
          rw [Except.error.injEq] at h
          exact ⟨⟨m, h.symm⟩, rfl, rfl, rfl⟩
        | none =>
          rw [if_neg hce, if_pos hcr, haf] at h
          exact Except.noConfusion h
      · cases hcf : env.createFailOn c with
        | some m =>
          rw [if_neg hce, if_neg hcr, hcf] at h
          rw [if_neg hce, if_neg hcr]
          dsimp only at h ⊢
          rw [Except.error.injEq] at h
          exact ⟨⟨m, h.symm⟩, rfl, rfl, rfl⟩
        | none =>
          rw [if_neg hce, if_neg hcr, hcf] at h
          exact Except.noConfusion h

theorem chunkListAux_mem {α : Type} (k : Nat) :
    ∀ (fuel : Nat) (l : List α) (sub : List α), sub ∈ chunkListAux k fuel l →
      ∀ x ∈ sub, x ∈ l := by
  intro fuel
  induction fuel with
  | zero => intro l sub h; cases l <;> simp [chunkListAux] at h
  | succ f ih =>
    intro l sub h
    cases l with
    | nil => simp [chunkListAux] at h
    | cons a as =>
      simp only [chunkListAux, List.mem_cons] at h
      intro x hx
      rcases h with h | h
      · subst h
        exact List.take_subset k (a :: as) hx
      · exact List.drop_subset k (a :: as) (ih ((a :: as).drop k) sub h x hx)

theorem mem_chunkList {α : Type} (k : Nat) (l : List α) (sub : List α)
    (h : sub ∈ chunkList k l) : ∀ x ∈ sub, x ∈ l := by
  rw [chunkList] at h
  by_cases hk : k = 0
  · rw [if_pos hk] at h
    simp at h
  · rw [if_neg hk] at h
    exact chunkListAux_mem k l.length l sub h

theorem preEmbedSubBatches_calls (env : Backend) (bn : Nat)
    (subs : List (List Doc)) (j : Nat) :
    ∀ call ∈ (preEmbedSubBatches env bn subs j).1,
      ∃ sub ∈ subs, call = sub.map docText := by
  induction subs generalizing j with
  | nil => simp [preEmbedSubBatches]
  | cons sub rest ih =>
    intro call hc
    simp only [preEmbedSubBatches] at hc
    cases hf : env.embedFailOn (sub.map docText) with
    | some msg =>
      rw [hf] at hc
      simp only [List.mem_singleton] at hc
      exact ⟨sub, List.mem_cons_self sub rest, hc⟩
    | none =>
      rw [hf] at hc
      simp only [List.mem_cons] at hc
      rcases hc with hc | hc
      · exact ⟨sub, List.mem_cons_self sub rest, hc⟩
      · obtain ⟨s, hs1, hs2⟩ := ih (j + 1) call hc
        exact ⟨s, List.mem_cons_of_mem sub hs1, hs2⟩

theorem preEmbedSubBatches_ok_mem (env : Backend) (bn : Nat)
    (subs : List (List Doc)) (j : Nat) (c : List Doc) (r : Nat)
    (h : (preEmbedSubBatches env bn subs j).2 = .ok (c, r)) :
    ∀ d ∈ c, ∃ sub ∈ subs, d ∈ sub := by
  induction subs generalizing j c r with
  | nil =>
    simp only [preEmbedSubBatches] at h
    cases h
    simp
  | cons sub rest ih =>
    simp only [preEmbedSubBatches] at h
    cases hf : env.embedFailOn (sub.map docText) with
    | some msg => rw [hf] at h; simp at h
    | none =>
      rw [hf] at h
      cases hr : (preEmbedSubBatches env bn rest (j + 1)).2 with
      | error e => rw [hr] at h; simp at h
      | ok cr2 =>
        rw [hr] at h
        obtain ⟨c2, r2⟩ := cr2
        simp only [Except.ok.injEq, Prod.mk.injEq] at h
        obtain ⟨hc, -⟩ := h
        subst hc
        intro d hd
        rcases List.mem_append.mp hd with hd | hd
        · exact ⟨sub, List.mem_cons_self sub rest,
            List.mem_of_mem_filter ((collectValid_zip env sub ▸ hd : d ∈ _))⟩
        · obtain ⟨s, hs1, hs2⟩ := ih (j + 1) c2 r2 hr d hd
          exact ⟨s, List.mem_cons_of_mem sub hs1, hs2⟩

theorem liveBatches_cons (env : Backend) (opts : ChromaOptions) (b : List Doc)
    (rest : List (List Doc)) :
    liveBatches env opts (b :: rest) =
      if (cleanedOf env opts b).isEmpty then liveBatches env opts rest
      else cleanedOf env opts b :: liveBatches env opts rest := by
  by_cases h : (cleanedOf env opts b).isEmpty <;>
    simp [liveBatches, List.filter_cons, h]

theorem specEvents_cons (env : Backend) (opts : ChromaOptions) (created : Bool)
    (b : List Doc) (rest : List (List Doc)) :
    specEvents env opts created (b :: rest) =
      stepEvents env opts created b ++
        specEvents env opts (created || !(cleanedOf env opts b).isEmpty) rest := by
  by_cases hce : (cleanedOf env opts b).isEmpty
  · simp [specEvents, stepEvents, liveBatches_cons, hce]
  · cases created with
    | true => simp [specEvents, stepEvents, liveBatches_cons, hce]
    | false => simp [specEvents, stepEvents, liveBatches_cons, hce]

theorem runBatches_ok_spec (env : Backend) (opts : ChromaOptions)
    (hs : 0 < opts.embedSubBatchSize) :
    ∀ (bs : List (List Doc)) (n : Nat) (st : RunState),
      (runBatches env opts bs n st).2 = .ok () →
      (runBatches env opts bs n st).1.insertedTotal =
          st.insertedTotal + ((bs.map (fun b => (cleanedOf env opts b).length)).sum) ∧
      (runBatches env opts bs n st).1.removedVecTotal =
          st.removedVecTotal + ((bs.map (removedCountOf env opts)).sum) ∧
      (runBatches env opts bs n st).1.events =
          st.events ++ specEvents env opts st.created bs ∧
      (runBatches env opts bs n st).1.created =
          (st.created || !(liveBatches env opts bs).isEmpty) := by
  intro bs
  induction bs with
  | nil =>
    intro n st h
    simp [runBatches, specEvents, liveBatches]
  | cons b rest ih =>
    intro n st h
    rw [runBatches] at h ⊢
    rcases hsb : stepBatch env opts n b st with ⟨st2, res⟩
    rw [hsb] at h
    cases res with
    | error msg => exact absurd h (by simp)
    | ok u =>
      obtain ⟨⟩ := u
      dsimp only at h ⊢
      have hok : (stepBatch env opts n b st).2 = .ok () := by rw [hsb]
      obtain ⟨s1, s2, s3, s4⟩ := stepBatch_ok env opts hs n b st hok
      rw [hsb] at s1 s2 s3 s4
      dsimp only at s1 s2 s3 s4
      obtain ⟨i1, i2, i3, i4⟩ := ih (n + 1) st2 h
      refine ⟨?_, ?_, ?_, ?_⟩
      · rw [i1, s3, List.map_cons, List.sum_cons]
        omega
      · rw [i2, s4, List.map_cons, List.sum_cons]
        omega
      · rw [i3, s2, s1, specEvents_cons, List.append_assoc]
      · rw [i4, s1, liveBatches_cons]
        by_cases hce : (cleanedOf env opts b).isEmpty <;>
          simp [hce, Bool.or_assoc]

theorem runBatches_error_spec (env : Backend) (opts : ChromaOptions) :
    ∀ (bs : List (List Doc)) (n : Nat) (st : RunState) (msg : String),
      (runBatches env opts bs n st).2 = .error msg →
      ∃ j, j < bs.length ∧ (∃ inner, msg = batchWrap (n + j) inner) ∧
        (runBatches env opts (bs.take j) n st).2 = .ok () ∧
        (runBatches env opts bs n st).1.events =
          (runBatches env opts (bs.take j) n st).1.events ∧
        (runBatches env opts bs n st).1.insertedTotal =
          (runBatches env opts (bs.take j) n st).1.insertedTotal ∧
        (runBatches env opts bs n st).1.created =
          (runBatches env opts (bs.take j) n st).1.created := by
  intro bs
  induction bs with
  | nil =>
    intro n st msg h
    simp [runBatches] at h
  | cons b rest ih =>
    intro n st msg h
    rw [runBatches] at h ⊢
    rcases hsb : stepBatch env opts n b st with ⟨st2, res⟩
    rw [hsb] at h
    cases res with
    | error m =>
      dsimp only at h ⊢
      obtain ⟨hmsg, e1, e2, e3⟩ := stepBatch_error env opts n b st m (by rw [hsb])
      rw [hsb] at e1 e2 e3
      dsimp only at e1 e2 e3
      rw [Except.error.injEq] at h
      subst h
      refine ⟨0, by simp, by simpa using hmsg, ?_, ?_, ?_, ?_⟩
      · simp [runBatches]
      · simp [runBatches, e2]
      · simp [runBatches, e3]
      · simp [runBatches, e1]
    | ok u =>
      obtain ⟨⟩ := u
      dsimp only at h ⊢
      obtain ⟨j, hj, hmsg, hpre, q1, q2, q3⟩ := ih (n + 1) st2 msg h
      refine ⟨j + 1, by simpa using Nat.succ_lt_succ hj, ?_, ?_, ?_, ?_, ?_⟩
      · obtain ⟨inner, hi⟩ := hmsg
        exact ⟨inner, by rw [hi]; ring_nf⟩
      · rw [List.take_succ_cons, runBatches, hsb]
        exact hpre
      · rw [List.take_succ_cons, runBatches, hsb]
        exact q1
      · rw [List.take_succ_cons, runBatches, hsb]
        exact q2
      · rw [List.take_succ_cons, runBatches, hsb]
        exact q3

theorem docText_good (d : Doc) (h : hasContent d = true) :
    0 < (jsTrim (docText d)).length := by
  unfold hasContent at h
  cases hd : d.pageContent with
  | none => rw [hd] at h; exact absurd h (by simp)
  | some s =>
    rw [hd] at h
    simpa [docText, hd] using h

theorem process_calls_good (env : Backend) (opts : ChromaOptions) (n : Nat)
    (b : List Doc) (hb : ∀ d ∈ b, hasContent d = true) :
    ∀ call ∈ (processDocsWithOptionalPreEmbed env opts n b).1,
      ∀ t ∈ call, 0 < (jsTrim t).length := by
  unfold processDocsWithOptionalPreEmbed
  by_cases hp : opts.preEmbedFilter
  · rw [if_pos hp]
    intro call hc t ht
    obtain ⟨sub, hs1, hs2⟩ := preEmbedSubBatches_calls env n _ 1 call hc
    subst hs2
    obtain ⟨d, hd1, hd2⟩ := List.mem_map.mp ht
    subst hd2
    exact docText_good d (hb d (mem_chunkList _ _ _ hs1 d hd1))
  · rw [if_neg hp]
    intro call hc
    simp at hc

theorem process_cleaned_good (env : Backend) (opts : ChromaOptions) (n : Nat)
    (b : List Doc) (c : List Doc) (r : Nat)
    (h : (processDocsWithOptionalPreEmbed env opts n b).2 = .ok (c, r)) :
    ∀ d ∈ c, d ∈ b := by
  unfold processDocsWithOptionalPreEmbed at h
  by_cases hp : opts.preEmbedFilter
  · rw [if_pos hp] at h
    intro d hd
    obtain ⟨sub, hs1, hs2⟩ := preEmbedSubBatches_ok_mem env n _ 1 c r h d hd
    exact mem_chunkList _ _ _ hs1 d hs2
  · rw [if_neg hp] at h
    simp only [Except.ok.injEq, Prod.mk.injEq] at h
    rw [← h.1]
    exact fun d hd => hd

theorem stepBatch_good (env : Backend) (opts : ChromaOptions) (n : Nat)
    (b : List Doc) (st : RunState) (hb : ∀ d ∈ b, hasContent d = true)
    (hst : GoodState st) : GoodState (stepBatch env opts n b st).1 := by
  obtain ⟨hcall, hev⟩ := hst
  have hcall2 : ∀ call ∈ st.embedCalls ++ (processDocsWithOptionalPreEmbed env opts n b).1,
      ∀ t ∈ call, 0 < (jsTrim t).length := by
    intro call hc
    rcases List.mem_append.mp hc with hc | hc
    · exact hcall call hc
    · exact process_calls_good env opts n b hb call hc
  simp only [stepBatch]
  generalize hgen : (processDocsWithOptionalPreEmbed env opts n b).2 = pr2
  cases pr2 with
  | error m => exact ⟨hcall2, hev⟩
  | ok cr =>
    obtain ⟨c, r⟩ := cr
    have hcb : ∀ d ∈ c, hasContent d = true :=
      fun d hd => hb d (process_cleaned_good env opts n b c r hgen d hd)
    dsimp only
    by_cases hce : c.isEmpty
    · rw [if_pos hce]
      exact ⟨hcall2, hev⟩
    · rw [if_neg hce]
      by_cases hcr : st.created
      · rw [if_pos hcr]
        cases env.addFailOn c with
        | some m => exact ⟨hcall2, hev⟩
        | none =>
          refine ⟨hcall2, ?_⟩
          intro e he
          rcases List.mem_append.mp he with he | he
          · exact hev e he
          · rw [List.mem_singleton] at he
            subst he
            exact hcb
      · rw [if_neg hcr]
        cases env.createFailOn c with
        | some m => exact ⟨hcall2, hev⟩
        | none =>
          refine ⟨hcall2, ?_⟩
          intro e he
          rcases List.mem_append.mp he with he | he
          · exact hev e he
          · rw [List.mem_singleton] at he
            subst he
            exact hcb

theorem runBatches_good (env : Backend) (opts : ChromaOptions) :
    ∀ (bs : List (List Doc)) (n : Nat) (st : RunState),
      (∀ b ∈ bs, ∀ d ∈ b, hasContent d = true) → GoodState st →
      GoodState (runBatches env opts bs n st).1 := by
  intro bs
  induction bs with
  | nil => intro n st _ hst; exact hst
  | cons b rest ih =>
    intro n st hbs hst
    rw [runBatches]
    rcases hsb : stepBatch env opts n b st with ⟨st2, res⟩
    have hg : GoodState st2 := by
      have := stepBatch_good env opts n b st
        (hbs b (List.mem_cons_self b rest)) hst
      rwa [hsb] at this
    cases res with
    | error m => exact hg
    | ok u =>
      exact ih (n + 1) st2 (fun b2 hb2 => hbs b2 (List.mem_cons_of_mem b hb2)) hg

theorem sum_cleaned_removed (env : Backend) (opts : ChromaOptions)
    (bs : List (List Doc)) :
    ((bs.map (fun b => (cleanedOf env opts b).length)).sum) +
      ((bs.map (removedCountOf env opts)).sum) = (bs.map List.length).sum := by
  induction bs with
  | nil => rfl
  | cons b rest ih =>
    simp only [List.map_cons, List.sum_cons]
    have := cleaned_removed_length env opts b
    omega

/-- C1: when createChromaStore completes successfully, the reported
insertedTotal plus the filtered documents (empty-content drops plus
empty-vector drops) equals the input count; the content drops are exactly
the documents failing the content filter, and under the pre-embed filter
the inserted and vector-dropped documents are exactly the live and dead
ones, so a chunk with an empty vector never contributes to the inserted
count.  Positive batch sizes are assumed because the JavaScript loop does
not terminate on a zero step. -/
theorem C1_claim (env : Backend) (documents : List Doc) (opts : ChromaOptions)
    (hb : 0 < opts.batchSize) (hs : 0 < opts.embedSubBatchSize)
    (r : ChromaOutcome)
    (h : (createChromaStore env documents opts).outcome = .ok r) :
    r.insertedTotal +
        (r.contentRemoved +
          (createChromaStore env documents opts).finalState.removedVecTotal) =
      documents.length ∧
    r.contentRemoved = (documents.filter (fun d => !(hasContent d))).length ∧
    (opts.preEmbedFilter = true →
      r.insertedTotal =
          ((documents.filter hasContent).filter (isLive env)).length ∧
      (createChromaStore env documents opts).finalState.removedVecTotal =
        ((documents.filter hasContent).filter (fun d => !(isLive env d))).length) := by
  simp only [createChromaStore] at h ⊢
  cases hr2 : (runBatches env opts
      (chunkList opts.batchSize (documents.filter hasContent)) 1 {}).2 with
  | error msg => rw [hr2] at h; exact absurd h (by simp)
  | ok u =>
    obtain ⟨⟩ := u
    rw [hr2] at h
    dsimp only at h
    rw [Except.ok.injEq] at h
    subst h
    obtain ⟨i1, i2, -, -⟩ := runBatches_ok_spec env opts hs
      (chunkList opts.batchSize (documents.filter hasContent)) 1 {} hr2
    have hflat := chunkList_flatten opts.batchSize hb (documents.filter hasContent)
    have hsplit := length_filter_split hasContent documents
    have hsum := sum_cleaned_removed env opts
      (chunkList opts.batchSize (documents.filter hasContent))
    have hlen : ((chunkList opts.batchSize (documents.filter hasContent)).map
        List.length).sum = (documents.filter hasContent).length := by
      rw [← List.length_flatten, hflat]
    refine ⟨?_, ?_, ?_⟩
    · dsimp only
      rw [i1, i2]
      dsimp only
      omega
    · dsimp only
      omega
    · intro hp
      constructor
      · dsimp only
        rw [i1]
        dsimp only
        have : (chunkList opts.batchSize (documents.filter hasContent)).map
            (fun b => (cleanedOf env opts b).length) =
            (chunkList opts.batchSize (documents.filter hasContent)).map
            (fun b => (b.filter (isLive env)).length) := by
          apply List.map_congr_left
          intro b _
          rw [cleanedOf, if_pos hp]
        rw [this, sum_length_filter_flatten, hflat]
        omega
      · dsimp only
        rw [i2]
        dsimp only
        have : (chunkList opts.batchSize (documents.filter hasContent)).map
            (removedCountOf env opts) =
            (chunkList opts.batchSize (documents.filter hasContent)).map
            (fun b => (b.filter (fun d => !(isLive env d))).length) := by
          apply List.map_congr_left
          intro b _
          rw [removedCountOf, if_pos hp]
        rw [this, sum_length_filter_flatten, hflat]
        omega

/-- C2: on a successful run the backend call sequence is empty when every
cleaned batch is empty, and otherwise consists of exactly one create call
for the first non-empty cleaned batch, carrying the cosine similarity
metric and the creation metadata, followed by one add call per later
non-empty cleaned batch; batches with an empty cleaned list are skipped. -/
theorem C2_claim (env : Backend) (documents : List Doc) (opts : ChromaOptions)
    (hs : 0 < opts.embedSubBatchSize) (r : ChromaOutcome)
    (h : (createChromaStore env documents opts).outcome = .ok r) :
    (liveBatches env opts (chunkList opts.batchSize (documents.filter hasContent)) = [] →
      (createChromaStore env documents opts).finalState.events = []) ∧
    (∀ c cs,
      liveBatches env opts (chunkList opts.batchSize (documents.filter hasContent)) =
        c :: cs →
      (createChromaStore env documents opts).finalState.events =
        .create opts.collectionName c "cosine" env.now opts.batchSize ::
          cs.map .add) := by
  simp only [createChromaStore] at h ⊢
  cases hr2 : (runBatches env opts
      (chunkList opts.batchSize (documents.filter hasContent)) 1 {}).2 with
  | error msg => rw [hr2] at h; exact absurd h (by simp)
  | ok u =>
    obtain ⟨⟩ := u
    obtain ⟨-, -, i3, -⟩ := runBatches_ok_spec env opts hs
      (chunkList opts.batchSize (documents.filter hasContent)) 1 {} hr2
    constructor
    · intro hnil
      rw [i3]
      simp [specEvents, hnil]
    · intro c cs hcons
      rw [i3]
      simp [specEvents, hcons]

/-- C3: when createChromaStore throws, the message is the ChromaDB
wrapper around the batch wrapper naming some batch number N, the batches
before N all succeeded, and the backend events and the inserted total of
the aborted run equal those of that successful prefix: earlier batches are
not rolled back. -/
theorem C3_claim (env : Backend) (documents : List Doc) (opts : ChromaOptions)
    (msg : String)
    (h : (createChromaStore env documents opts).outcome = .error msg) :
    ∃ N inner, 1 ≤ N ∧
      N ≤ (chunkList opts.batchSize (documents.filter hasContent)).length ∧
      msg = "ChromaDB 连接失败: " ++ batchWrap N inner ∧
      (runBatches env opts
        ((chunkList opts.batchSize (documents.filter hasContent)).take (N - 1))
        1 {}).2 = .ok () ∧
      (createChromaStore env documents opts).finalState.events =
        (runBatches env opts
          ((chunkList opts.batchSize (documents.filter hasContent)).take (N - 1))
          1 {}).1.events ∧
      (createChromaStore env documents opts).finalState.insertedTotal =
        (runBatches env opts
          ((chunkList opts.batchSize (documents.filter hasContent)).take (N - 1))
          1 {}).1.insertedTotal := by
  simp only [createChromaStore] at h ⊢
  cases hr2 : (runBatches env opts
      (chunkList opts.batchSize (documents.filter hasContent)) 1 {}).2 with
  | ok u => rw [hr2] at h; exact absurd h (by simp)
  | error m =>
    rw [hr2] at h
    dsimp only at h
    rw [Except.error.injEq] at h
    obtain ⟨j, hj, ⟨inner, hin⟩, hpre, q1, q2, -⟩ :=
      runBatches_error_spec env opts
        (chunkList opts.batchSize (documents.filter hasContent)) 1 {} m hr2
    refine ⟨1 + j, inner, by omega, by omega, ?_, ?_, ?_, ?_⟩
    · rw [← h, hin]
    · simpa using hpre
    · simpa using q1
    · simpa using q2

/-- C4: for every environment, document list and options, no text with
empty or whitespace-only trimmed content is ever passed to embedDocuments,
and every document handed to a create or add call passes the content
filter, so no such document is counted as inserted. -/
theorem C4_claim (env : Backend) (documents : List Doc) (opts : ChromaOptions) :
    (∀ call ∈ (createChromaStore env documents opts).finalState.embedCalls,
        ∀ t ∈ call, 0 < (jsTrim t).length) ∧
    (∀ e ∈ (createChromaStore env documents opts).finalState.events,
        ∀ d ∈ e.docs, hasContent d = true) := by
  simp only [createChromaStore]
  apply runBatches_good
  · intro b hb d hd
    exact (List.mem_filter.mp
      (mem_chunkList opts.batchSize (documents.filter hasContent) b hb d hd)).2
  · exact ⟨by simp [RunState.embedCalls], by simp [RunState.events]⟩

theorem preEmbedSubBatches_no_fail (env : Backend) (bn : Nat)
    (hembed : ∀ texts, env.embedFailOn texts = none) (subs : List (List Doc)) :
    ∀ j, ∃ c r, (preEmbedSubBatches env bn subs j).2 = .ok (c, r) := by
  induction subs with
  | nil => intro j; exact ⟨[], 0, rfl⟩
  | cons sub rest ih =>
    intro j
    obtain ⟨c2, r2, hr⟩ := ih (j + 1)
    refine ⟨(collectValid (sub.zip ((sub.map docText).map env.embedOne))).1 ++ c2,
            (collectValid (sub.zip ((sub.map docText).map env.embedOne))).2 + r2, ?_⟩
    simp only [preEmbedSubBatches, hembed (sub.map docText), hr]

theorem process_no_fail (env : Backend) (opts : ChromaOptions) (n : Nat)
    (b : List Doc) (hembed : ∀ texts, env.embedFailOn texts = none) :
    ∃ c r, (processDocsWithOptionalPreEmbed env opts n b).2 = .ok (c, r) := by
  unfold processDocsWithOptionalPreEmbed
  by_cases hp : opts.preEmbedFilter
  · rw [if_pos hp]
    exact preEmbedSubBatches_no_fail env n hembed _ 1
  · rw [if_neg hp]
    exact ⟨b, 0, rfl⟩

theorem stepBatch_skip (env : Backend) (opts : ChromaOptions) (n : Nat)
    (b : List Doc) (st : RunState)
    (hembed : ∀ texts, env.embedFailOn texts = none)
    (hdead : ∀ d ∈ b, opts.preEmbedFilter = true ∧ isLive env d = false) :
    (stepBatch env opts n b st).2 = .ok () ∧
    (stepBatch env opts n b st).1.created = st.created ∧
    (stepBatch env opts n b st).1.events = st.events ∧
    (stepBatch env opts n b st).1.insertedTotal = st.insertedTotal := by
  obtain ⟨c, r, hpr⟩ := process_no_fail env opts n b hembed
  have hcnil : c = [] := by
    unfold processDocsWithOptionalPreEmbed at hpr
    by_cases hp : opts.preEmbedFilter
    · rw [if_pos hp] at hpr
      obtain ⟨h1, -⟩ := preEmbedSubBatches_ok env n _ 1 c r hpr
      rw [List.eq_nil_iff_forall_not_mem]
      intro d hd
      rw [h1] at hd
      obtain ⟨hdf, hdl⟩ := List.mem_filter.mp hd
      obtain ⟨sub, hsub, hdsub⟩ := List.mem_flatten.mp hdf
      have hdb : d ∈ b := mem_chunkList opts.embedSubBatchSize b sub hsub d hdsub
      rw [(hdead d hdb).2] at hdl
      exact absurd hdl (by simp)
    · rw [if_neg hp] at hpr
      simp only [Except.ok.injEq, Prod.mk.injEq] at hpr
      cases hb : b with
      | nil => rw [← hpr.1, hb]
      | cons d ds =>
        exact absurd (hdead d (hb ▸ List.mem_cons_self d ds)).1 hp
  subst hcnil
  simp only [stepBatch]
  generalize hgen : (processDocsWithOptionalPreEmbed env opts n b).2 = pr2
  rw [hgen] at hpr
  subst hpr
  dsimp only
  rw [if_pos (by simp : (([] : List Doc).isEmpty) = true)]
  exact ⟨rfl, rfl, rfl, rfl⟩

theorem runBatches_skip (env : Backend) (opts : ChromaOptions)
    (hembed : ∀ texts, env.embedFailOn texts = none) :
    ∀ (bs : List (List Doc)) (n : Nat) (st : RunState),
      (∀ b ∈ bs, ∀ d ∈ b, opts.preEmbedFilter = true ∧ isLive env d = false) →
      (runBatches env opts bs n st).2 = .ok () ∧
      (runBatches env opts bs n st).1.created = st.created ∧
      (runBatches env opts bs n st).1.events = st.events ∧
      (runBatches env opts bs n st).1.insertedTotal = st.insertedTotal := by
  intro bs
  induction bs with
  | nil => intro n st _; exact ⟨rfl, rfl, rfl, rfl⟩
  | cons b rest ih =>
    intro n st hdead
    rw [runBatches]
    obtain ⟨k1, k2, k3, k4⟩ := stepBatch_skip env opts n b st hembed
      (hdead b (List.mem_cons_self b rest))
    rcases hsb : stepBatch env opts n b st with ⟨st2, res⟩
    rw [hsb] at k1 k2 k3 k4
    dsimp only at k1 k2 k3 k4
    subst k1
    dsimp only
    obtain ⟨m1, m2, m3, m4⟩ := ih (n + 1) st2
      (fun b2 hb2 => hdead b2 (List.mem_cons_of_mem b hb2))
    exact ⟨m1, by rw [m2, k2], by rw [m3, k3], by rw [m4, k4]⟩

/-- C10: when every input document is filtered out (empty input, all
contents empty or whitespace-only, or every embedding vector dead under
the pre-embed filter), no batch creates the collection and
createChromaStore resolves successfully with an undefined store handle
(storeCreated false), zero inserted documents and no backend calls.
Positive batch sizes are assumed because the JavaScript loops do not
terminate on a zero step. -/
theorem C10_claim (env : Backend) (documents : List Doc) (opts : ChromaOptions)
    (hb : 0 < opts.batchSize) (hs : 0 < opts.embedSubBatchSize)
    (hembed : ∀ texts, env.embedFailOn texts = none)
    (hdead : ∀ d ∈ documents, hasContent d = false ∨
        (opts.preEmbedFilter = true ∧ isLive env d = false)) :
    (createChromaStore env documents opts).outcome =
      .ok { storeCreated := false, insertedTotal := 0,
            contentRemoved :=
              documents.length - (documents.filter hasContent).length } ∧
    (createChromaStore env documents opts).finalState.events = [] := by
  have hall : ∀ b ∈ chunkList opts.batchSize (documents.filter hasContent),
      ∀ d ∈ b, opts.preEmbedFilter = true ∧ isLive env d = false := by
    intro b hb d hd
    have hdf := mem_chunkList opts.batchSize (documents.filter hasContent) b hb d hd
    obtain ⟨hdd, hdc⟩ := List.mem_filter.mp hdf
    rcases hdead d hdd with hfalse | hgood
    · rw [hfalse] at hdc; exact absurd hdc (by simp)
    · exact hgood
  obtain ⟨m1, m2, m3, m4⟩ := runBatches_skip env opts hembed
    (chunkList opts.batchSize (documents.filter hasContent)) 1 {} hall
  simp only [createChromaStore]
  rw [m1]
  dsimp only
  rw [m2, m3, m4]
  exact ⟨rfl, rfl⟩

theorem C1_claim_witness :
    ∃ r, (createChromaStore witnessEnv witnessDocs witnessOpts).outcome = .ok r ∧
      r.insertedTotal +
          (r.contentRemoved +
            (createChromaStore witnessEnv witnessDocs witnessOpts).finalState.removedVecTotal) =
        witnessDocs.length := by
  refine ⟨{ storeCreated := true, insertedTotal := 3, contentRemoved := 2 }, by rfl, ?_⟩
  exact (C1_claim witnessEnv witnessDocs witnessOpts (by decide) (by decide)
    { storeCreated := true, insertedTotal := 3, contentRemoved := 2 } (by rfl)).1

theorem C2_claim_witness :
    (createChromaStore witnessEnv witnessDocs witnessOpts).finalState.events =
      .create "langchain-docs" [⟨some "a"⟩] "cosine" "2026-01-01T00:00:00.000Z" 2 ::
        [[⟨some "b"⟩, ⟨some "c"⟩]].map .add := by
  exact (C2_claim witnessEnv witnessDocs witnessOpts (by decide)
    { storeCreated := true, insertedTotal := 3, contentRemoved := 2 } (by rfl)).2
    [⟨some "a"⟩] [[⟨some "b"⟩, ⟨some "c"⟩]] (by rfl)

theorem C3_claim_witness :
    ∃ N inner,
      1 ≤ N ∧
      N ≤ (chunkList witnessOpts.batchSize (witnessDocs.filter hasContent)).length ∧
      "ChromaDB 连接失败: 分批处理失败（第2批）: boom" =
        "ChromaDB 连接失败: " ++ batchWrap N inner ∧
      (runBatches witnessFailEnv witnessOpts
        ((chunkList witnessOpts.batchSize (witnessDocs.filter hasContent)).take (N - 1))
        1 {}).2 = .ok () ∧
      (createChromaStore witnessFailEnv witnessDocs witnessOpts).finalState.events =
        (runBatches witnessFailEnv witnessOpts
          ((chunkList witnessOpts.batchSize (witnessDocs.filter hasContent)).take (N - 1))
          1 {}).1.events ∧
      (createChromaStore witnessFailEnv witnessDocs witnessOpts).finalState.insertedTotal =
        (runBatches witnessFailEnv witnessOpts
          ((chunkList witnessOpts.batchSize (witnessDocs.filter hasContent)).take (N - 1))
          1 {}).1.insertedTotal :=
  C3_claim witnessFailEnv witnessDocs witnessOpts
    "ChromaDB 连接失败: 分批处理失败（第2批）: boom" (by rfl)

theorem C10_claim_witness :
    (createChromaStore witnessDeadEnv witnessDocs witnessOpts).outcome =
      .ok { storeCreated := false, insertedTotal := 0,
            contentRemoved :=
              witnessDocs.length - (witnessDocs.filter hasContent).length } ∧
    (createChromaStore witnessDeadEnv witnessDocs witnessOpts).finalState.events = [] :=
  C10_claim witnessDeadEnv witnessDocs witnessOpts (by decide) (by decide)
    (fun _ => rfl) (by decide)

end VectorStoreFactory

namespace VectorStoreFactory

/-- C5: validateDatabaseIntegrity issues the probe query and reports the
server count next to expectedCount for comparison, and for every input it
returns a report value rather than throwing: the report echoes
expectedCount, it is valid exactly when no probe operation failed, and any
failure yields isValid false together with the failing message. -/
theorem C5_claim (store : Option StoreHandle) (expectedCount : Nat) (now : String) :
    (validateDatabaseIntegrity store expectedCount now).expected = expectedCount ∧
    ((validateDatabaseIntegrity store expectedCount now).isValid = true ↔
      validationFailure store = none) ∧
    (∀ e, validationFailure store = some e →
      (validateDatabaseIntegrity store expectedCount now).isValid = false ∧
      (validateDatabaseIntegrity store expectedCount now).errorMsg = some e) := by
  cases store with
  | none =>
    simp [validateDatabaseIntegrity, validationFailure, IntegrityReport.isValid,
      IntegrityReport.errorMsg, IntegrityReport.expected]
  | some vs =>
    cases hss : vs.similaritySearch with
    | error e =>
      simp [validateDatabaseIntegrity, validationFailure, hss,
        IntegrityReport.isValid, IntegrityReport.errorMsg, IntegrityReport.expected]
    | ok tq =>
      cases hcl : vs.client with
      | none =>
        simp [validateDatabaseIntegrity, validationFailure, hss, hcl,
          IntegrityReport.isValid, IntegrityReport.errorMsg, IntegrityReport.expected]
      | some c =>
        cases hgc : c.getCollection with
        | error e =>
          simp [validateDatabaseIntegrity, validationFailure, hss, hcl, hgc,
            IntegrityReport.isValid, IntegrityReport.errorMsg, IntegrityReport.expected]
        | ok info =>
          simp [validateDatabaseIntegrity, validationFailure, hss, hcl, hgc,
            IntegrityReport.isValid, IntegrityReport.errorMsg, IntegrityReport.expected]

theorem C5_claim_witness :
    (validateDatabaseIntegrity
        (some { similaritySearch := .error "probe failed",
                client := none, collectionName := "langchain-docs" }) 7 "t0").isValid
      = false ∧
    (validateDatabaseIntegrity
        (some { similaritySearch := .error "probe failed",
                client := none, collectionName := "langchain-docs" }) 7 "t0").errorMsg
      = some "probe failed" :=
  (C5_claim
    (some { similaritySearch := .error "probe failed",
            client := none, collectionName := "langchain-docs" }) 7 "t0").2.2
    "probe failed" rfl

/-- C7: cleanChromaCollection returns true both when the delete succeeds
and when the delete fails with a does-not-exist message, so deleting a
missing collection is indistinguishable from deleting an existing one. -/
theorem C7_claim (env : CleanEnv) (hc : env.connect = .ok ()) :
    (env.deleteResult = .ok () → cleanChromaCollection env = true) ∧
    (∀ msg, env.deleteResult = .error msg →
      strIncludes msg ("does not exist") = true →
      cleanChromaCollection env = true) := by
  constructor
  · intro hd
    simp [cleanChromaCollection, hc, hd]
  · intro msg hd hinc
    simp [cleanChromaCollection, hc, hd, hinc]

theorem C7_claim_witness :
    cleanChromaCollection { connect := .ok (), deleteResult := .ok () } = true ∧
    cleanChromaCollection
      { connect := .ok (),
        deleteResult := .error "Collection langchain-docs does not exist." } = true :=
  ⟨(C7_claim { connect := .ok (), deleteResult := .ok () } rfl).1 rfl,
   (C7_claim { connect := .ok (),
               deleteResult :=
                 .error "Collection langchain-docs does not exist." } rfl).2
     "Collection langchain-docs does not exist." rfl (by decide)⟩

end VectorStoreFactory

-- SECTION: supporting lemmas and claim theorem (document processor)

namespace DocumentProcessor

theorem jsLookup_setKey (m : List (String × JsVal)) (k k2 : String) (v : JsVal) :
    jsLookup k (setKey m k2 v) = if k2 = k then some v else jsLookup k m := by
  induction m with
  | nil => simp [setKey, jsLookup]
  | cons kv rest ih =>
    obtain ⟨k0, v0⟩ := kv
    by_cases h0 : k0 = k2
    · subst h0
      by_cases hk : k0 = k
      · subst hk
        simp [setKey, jsLookup]
      · simp [setKey, jsLookup, hk]
    · by_cases hk : k0 = k
      · subst hk
        simp [setKey, jsLookup, h0, Ne.symm h0]
      · simp [setKey, jsLookup, h0, hk, ih]

theorem keepVal_prim (v v2 : JsVal) (h : keepVal v = some v2) : isPrim v2 = true := by
  cases v with
  | str s => simp only [keepVal, Option.some.injEq] at h; subst h; rfl
  | num n => simp only [keepVal, Option.some.injEq] at h; subst h; rfl
  | bool b => simp only [keepVal, Option.some.injEq] at h; subst h; rfl
  | null => simp only [keepVal, Option.some.injEq] at h; subst h; rfl
  | obj fields => simp only [keepVal, Option.some.injEq] at h; subst h; rfl
  | undef => exact Option.noConfusion h
  | func => exact Option.noConfusion h

theorem keepVal_of_prim (v : JsVal) (h : isPrim v = true) : keepVal v = some v := by
  cases v <;> first | rfl | exact Bool.noConfusion h

theorem mem_setKey (m : List (String × JsVal)) (k2 : String) (v2 : JsVal)
    (k : String) (v : JsVal) (h : (k, v) ∈ setKey m k2 v2) :
    (k, v) ∈ m ∨ (k = k2 ∧ v = v2) := by
  induction m with
  | nil =>
    simp only [setKey, List.mem_singleton] at h
    exact Or.inr (Prod.mk.inj h)
  | cons kv rest ih =>
    obtain ⟨k0, v0⟩ := kv
    by_cases h0 : k0 = k2
    · subst h0
      rw [setKey, if_pos rfl] at h
      rcases List.mem_cons.mp h with h | h
      · exact Or.inr (Prod.mk.inj h)
      · exact Or.inl (List.mem_cons_of_mem _ h)
    · rw [setKey, if_neg h0] at h
      rcases List.mem_cons.mp h with h | h
      · exact Or.inl (List.mem_cons.mpr (Or.inl h))
      · rcases ih h with h2 | h2
        · exact Or.inl (List.mem_cons_of_mem _ h2)
        · exact Or.inr h2

theorem mem_copyEntries (l : List (String × JsVal)) :
    ∀ (acc : List (String × JsVal)) (k : String) (v : JsVal),
      (k, v) ∈ copyEntries acc l → (k, v) ∈ acc ∨ isPrim v = true := by
  induction l with
  | nil => intro acc k v h; exact Or.inl h
  | cons kv0 rest ih =>
    intro acc k v h
    obtain ⟨k0, v0⟩ := kv0
    simp only [copyEntries] at h
    cases hk : keepVal v0 with
    | none =>
      rw [hk] at h
      exact ih acc k v h
    | some v2 =>
      rw [hk] at h
      rcases ih _ k v h with h2 | h2
      · rcases mem_setKey acc k0 v2 k v h2 with h3 | h3
        · exact Or.inl h3
        · exact Or.inr (h3.2 ▸ keepVal_prim v0 v2 hk)
      · exact Or.inr h2

theorem jsLookup_mem (m : List (String × JsVal)) (k : String) (v : JsVal)
    (h : jsLookup k m = some v) : (k, v) ∈ m := by
  induction m with
  | nil => exact Option.noConfusion h
  | cons kv rest ih =>
    obtain ⟨k0, v0⟩ := kv
    rw [jsLookup] at h
    by_cases hk : k0 = k
    · rw [if_pos hk] at h
      subst hk
      rw [Option.some.injEq] at h
      exact List.mem_cons.mpr (Or.inl (by rw [h]))
    · rw [if_neg hk] at h
      exact List.mem_cons_of_mem _ (ih h)

theorem jsLookup_copyEntries (l : List (String × JsVal)) :
    ∀ (acc : List (String × JsVal)) (k : String),
      jsLookup k (copyEntries acc l) =
        match lastKeep k l with
        | some w => some w
        | none => jsLookup k acc := by
  induction l with
  | nil => intro acc k; simp [copyEntries, lastKeep]
  | cons kv0 rest ih =>
    intro acc k
    obtain ⟨k0, v0⟩ := kv0
    simp only [copyEntries, lastKeep]
    cases hk : keepVal v0 with
    | none =>
      rw [ih acc k]
      cases hl : lastKeep k rest with
      | some w => simp
      | none =>
        by_cases h0 : k0 = k
        · subst h0
          simp [hk]
        · simp [h0]
    | some v2 =>
      rw [ih (setKey acc k0 v2) k]
      cases hl : lastKeep k rest with
      | some w => simp
      | none =>
        rw [jsLookup_setKey]
        by_cases h0 : k0 = k
        · subst h0
          simp [hk]
        · simp [h0]

def keysNodup (m : List (String × JsVal)) : Prop :=
  (m.map Prod.fst).Nodup

theorem keysNodup_setKey (m : List (String × JsVal)) (k : String) (v : JsVal)
    (h : keysNodup m) : keysNodup (setKey m k v) := by
  induction m with
  | nil => simp [setKey, keysNodup]
  | cons kv rest ih =>
    obtain ⟨k0, v0⟩ := kv
    rw [keysNodup, List.map_cons, List.nodup_cons] at h
    by_cases h0 : k0 = k
    · rw [setKey, if_pos h0, keysNodup, List.map_cons, List.nodup_cons]
      exact ⟨h.1, h.2⟩
    · rw [setKey, if_neg h0, keysNodup, List.map_cons, List.nodup_cons]
      refine ⟨?_, ih h.2⟩
      intro hmem
      obtain ⟨⟨k1, v1⟩, hm, he⟩ := List.mem_map.mp hmem
      dsimp only at he
      subst he
      rcases mem_setKey rest k v k1 v1 hm with h2 | h2
      · exact h.1 (List.mem_map.mpr ⟨(k1, v1), h2, rfl⟩)
      · exact h0 h2.1

theorem keysNodup_copyEntries (l : List (String × JsVal)) :
    ∀ acc, keysNodup acc → keysNodup (copyEntries acc l) := by
  induction l with
  | nil => intro acc h; exact h
  | cons kv0 rest ih =>
    intro acc h
    obtain ⟨k0, v0⟩ := kv0
    simp only [copyEntries]
    cases hk : keepVal v0 with
    | none => exact ih acc h
    | some v2 => exact ih _ (keysNodup_setKey acc k0 v2 h)

theorem lastKeep_not_mem (l : List (String × JsVal)) (k : String)
    (h : k ∉ l.map Prod.fst) : lastKeep k l = none := by
  induction l with
  | nil => rfl
  | cons kv rest ih =>
    obtain ⟨k0, v0⟩ := kv
    simp only [List.map_cons, List.mem_cons, not_or] at h
    rw [lastKeep, ih h.2, if_neg (fun he => h.1 he.symm)]

theorem jsLookup_not_mem (l : List (String × JsVal)) (k : String)
    (h : k ∉ l.map Prod.fst) : jsLookup k l = none := by
  induction l with
  | nil => rfl
  | cons kv rest ih =>
    obtain ⟨k0, v0⟩ := kv
    simp only [List.map_cons, List.mem_cons, not_or] at h
    rw [jsLookup, if_neg (fun he => h.1 he.symm)]
    exact ih h.2

theorem lastKeep_nodup (l : List (String × JsVal)) (k : String)
    (h : keysNodup l) :
    lastKeep k l = (jsLookup k l).bind keepVal := by
  induction l with
  | nil => rfl
  | cons kv rest ih =>
    obtain ⟨k0, v0⟩ := kv
    rw [keysNodup, List.map_cons, List.nodup_cons] at h
    by_cases h0 : k0 = k
    · subst h0
      have hnm : k0 ∉ rest.map Prod.fst := by
        intro hmem
        exact h.1 (by simpa using hmem)
      have hrhs : jsLookup k0 ((k0, v0) :: rest) = some v0 := by
        rw [jsLookup, if_pos rfl]
      rw [lastKeep, lastKeep_not_mem rest k0 hnm, hrhs]
      show (if k0 = k0 then keepVal v0 else none) = keepVal v0
      rw [if_pos rfl]
    · have hrhs : jsLookup k ((k0, v0) :: rest) = jsLookup k rest := by
        rw [jsLookup, if_neg h0]
      rw [lastKeep, ih h.2, hrhs]
      cases hl : jsLookup k rest with
      | some w =>
        show (match keepVal w with
              | some w2 => some w2
              | none => if k0 = k then keepVal v0 else none) = keepVal w
        cases hw : keepVal w with
        | some u => rfl
        | none => rw [if_neg h0]
      | none =>
        show (if k0 = k then keepVal v0 else none) = none
        rw [if_neg h0]

theorem jsLookup_finalizeMeta (base : List (String × JsVal)) (sv csv : JsVal)
    (now : String) (k : String) :
    jsLookup k (finalizeMeta base sv csv now) =
      if "processed_at" = k then some (.str now)
      else if "chunk_size" = k then some csv
      else if "source" = k then some sv
      else jsLookup k base := by
  rw [finalizeMeta, jsLookup_setKey, jsLookup_setKey, jsLookup_setKey]

theorem finalizeMeta_nodup (base : List (String × JsVal)) (sv csv : JsVal)
    (now : String) (h : keysNodup base) :
    keysNodup (finalizeMeta base sv csv now) :=
  keysNodup_setKey _ _ _ (keysNodup_setKey _ _ _ (keysNodup_setKey _ _ _ h))

theorem baseOf_nodup (d : JsDoc) : keysNodup (baseOf d) := by
  rw [baseOf]
  cases d.metadata with
  | none => simp [keysNodup]
  | some entries => exact keysNodup_copyEntries entries [] (by simp [keysNodup])

theorem baseOf_prim (d : JsDoc) (k : String) (v : JsVal)
    (h : jsLookup k (baseOf d) = some v) : isPrim v = true := by
  rw [baseOf] at h
  cases hm : d.metadata with
  | none => rw [hm] at h; exact Option.noConfusion h
  | some entries =>
    rw [hm] at h
    rcases mem_copyEntries entries [] k v (jsLookup_mem _ k v h) with h2 | h2
    · exact absurd h2 (List.not_mem_nil _)
    · exact h2

theorem srcValOf_truthy (d : JsDoc) : jsTruthy (srcValOf d) = true := by
  rw [srcValOf]
  cases d.metadata.bind (jsLookup "source") with
  | none => decide
  | some v =>
    show jsTruthy (if jsTruthy v = true then v else JsVal.str "unknown") = true
    by_cases hv : jsTruthy v
    · rw [if_pos hv]
      exact hv
    · rw [if_neg hv]
      decide

theorem copyEntries_lookup_eq_at (m : List (String × JsVal)) (k : String)
    (hn : keysNodup m) (hp : ∀ v, jsLookup k m = some v → isPrim v = true) :
    jsLookup k (copyEntries [] m) = jsLookup k m := by
  rw [jsLookup_copyEntries m [] k, lastKeep_nodup m k hn]
  cases hv : jsLookup k m with
  | none => rfl
  | some v =>
    show (match (some v).bind keepVal with
          | some w => some w
          | none => jsLookup k ([] : List (String × JsVal))) = some v
    rw [show (some v).bind keepVal = keepVal v from rfl, keepVal_of_prim v (hp v hv)]

theorem sanitizeDoc_idem (now : String) (d : JsDoc) :
    docEquiv (sanitizeDoc now (sanitizeDoc now d)) (sanitizeDoc now d) := by
  refine ⟨rfl, ?_⟩
  intro k
  have hd1meta : (sanitizeDoc now d).metadata =
      some (finalizeMeta (baseOf d) (srcValOf d) (chunkSizeOf d) now) := rfl
  have hsrclook : jsLookup "source"
      (finalizeMeta (baseOf d) (srcValOf d) (chunkSizeOf d) now) =
      some (srcValOf d) := by
    rw [jsLookup_finalizeMeta, if_neg (by decide), if_neg (by decide), if_pos rfl]
  have hsrc2 : srcValOf (sanitizeDoc now d) = srcValOf d := by
    rw [srcValOf, hd1meta]
    show (match jsLookup "source"
            (finalizeMeta (baseOf d) (srcValOf d) (chunkSizeOf d) now) with
          | some v => if jsTruthy v then v else .str "unknown"
          | none => .str "unknown") = srcValOf d
    rw [hsrclook]
    show (if jsTruthy (srcValOf d) then srcValOf d else .str "unknown") = srcValOf d
    rw [if_pos (srcValOf_truthy d)]
  have hcs2 : chunkSizeOf (sanitizeDoc now d) = chunkSizeOf d := rfl
  have hbase2 : baseOf (sanitizeDoc now d) =
      copyEntries [] (finalizeMeta (baseOf d) (srcValOf d) (chunkSizeOf d) now) := by
    rw [baseOf, hd1meta]
  have hd2meta : (sanitizeDoc now (sanitizeDoc now d)).metadata =
      some (finalizeMeta (baseOf (sanitizeDoc now d)) (srcValOf (sanitizeDoc now d))
        (chunkSizeOf (sanitizeDoc now d)) now) := rfl
  rw [metaLookup, metaLookup, hd1meta, hd2meta, hsrc2, hcs2, hbase2]
  show jsLookup k (finalizeMeta
      (copyEntries [] (finalizeMeta (baseOf d) (srcValOf d) (chunkSizeOf d) now))
      (srcValOf d) (chunkSizeOf d) now) =
    jsLookup k (finalizeMeta (baseOf d) (srcValOf d) (chunkSizeOf d) now)
  rw [jsLookup_finalizeMeta, jsLookup_finalizeMeta]
  by_cases h1 : "processed_at" = k
  · rw [if_pos h1, if_pos h1]
  rw [if_neg h1, if_neg h1]
  by_cases h2 : "chunk_size" = k
  · rw [if_pos h2, if_pos h2]
  rw [if_neg h2, if_neg h2]
  by_cases h3 : "source" = k
  · rw [if_pos h3, if_pos h3]
  rw [if_neg h3, if_neg h3]
  rw [copyEntries_lookup_eq_at _ k
    (finalizeMeta_nodup _ _ _ _ (baseOf_nodup d)) ?_, jsLookup_finalizeMeta,
    if_neg h1, if_neg h2, if_neg h3]
  intro v hv
  rw [jsLookup_finalizeMeta, if_neg h1, if_neg h2, if_neg h3] at hv
  exact baseOf_prim d k v hv

/-- C6: sanitizeMetadata is idempotent.  For every clock reading and every
document list, applying sanitizeMetadata twice yields the same result as
applying it once: pointwise the same content and the same metadata mapping
(every key reads the same value). -/
theorem C6_claim (now : String) (docs : List JsDoc) :
    List.Forall₂ docEquiv (sanitizeMetadata now (sanitizeMetadata now docs))
      (sanitizeMetadata now docs) := by
  simp only [sanitizeMetadata]
  induction docs with
  | nil => exact List.Forall₂.nil
  | cons d rest ih =>
    exact List.Forall₂.cons (sanitizeDoc_idem now d) ih

end DocumentProcessor

-- SECTION: supporting lemmas and claim theorems (conversation state machine)

namespace ChatBot

theorem getThread_setThread (store : List (String × List Msg)) (t : String)
    (v : List Msg) : getThread t (setThread store t v) = v := by
  induction store with
  | nil => simp [setThread, getThread]
  | cons kv rest ih =>
    obtain ⟨t0, m0⟩ := kv
    by_cases h : t0 = t
    · rw [setThread, if_pos h, getThread, if_pos h]
    · rw [setThread, if_neg h, getThread, if_neg h]
      exact ih

theorem trim_fits (budget : Nat) (msgs : List Msg)
    (h : estTokens msgs ≤ budget) : trimMessagesModel budget msgs = msgs := by
  cases msgs with
  | nil => rfl
  | cons first rest =>
    rw [trimMessagesModel]
    by_cases hs : first.role = "system"
    · rw [if_pos hs]
      cases rest with
      | nil => rfl
      | cons m rest2 =>
        rw [fitTail, if_pos (show estTokens ([first] ++ m :: rest2) ≤ budget from h)]
    · rw [if_neg hs]
      rw [fitTail, if_pos (show estTokens ([] ++ first :: rest) ≤ budget from h)]

/-- C8 (amended): after a runTime turn that stored the name message on
thread T, a subsequent runTime question on T invokes the chat capability
with the trimmed history containing the earlier user turn, provided the
estimated token count of the stored history plus the new question fits the
1000-token budget; a history past the budget is trimmed from the oldest
side and may lose that turn. -/
theorem C8_claim (env : ChatEnv) (store : List (String × List Msg))
    (x t : String)
    (hfit : estTokens
      (getThread t (runTime env store ("My name is " ++ x) t).store ++
        [{ role := "user", content := "what is my name" }]) ≤ 1000) :
    ({ role := "user", content := "My name is " ++ x } : Msg) ∈
      (runTime env (runTime env store ("My name is " ++ x) t).store
        "what is my name" t).llmInput := by
  have hshape : (runTime env (runTime env store ("My name is " ++ x) t).store
      "what is my name" t).llmInput =
      systemPrompt :: trimMessagesModel 1000
        (getThread t (runTime env store ("My name is " ++ x) t).store ++
          [{ role := "user", content := "what is my name" }]) := rfl
  rw [hshape, trim_fits 1000 _ hfit]
  have hstore : getThread t (runTime env store ("My name is " ++ x) t).store =
      (getThread t store ++ [{ role := "user", content := "My name is " ++ x }]) ++
        [(callModel env (getThread t store ++
          [{ role := "user", content := "My name is " ++ x }])).1] := by
    show getThread t (setThread store t _) = _
    rw [getThread_setThread]
  rw [hstore]
  simp

theorem C8_claim_witness :
    estTokens
      (getThread "T" (runTime smallEnv [] ("My name is " ++ "X") "T").store ++
        [{ role := "user", content := "what is my name" }]) ≤ 1000 ∧
    ({ role := "user", content := "My name is " ++ "X" } : Msg) ∈
      (runTime smallEnv (runTime smallEnv [] ("My name is " ++ "X") "T").store
        "what is my name" "T").llmInput :=
  ⟨by decide, C8_claim smallEnv [] "X" "T" (by decide)⟩

/-- C8 counterexample: with a fake chat capability answering 3100
characters, the second turn of the claimed scenario is invoked without the
earlier name turn, because the trimmer drops it to fit the 1000-token
budget; the claim as stated, quantified over every chat capability, is
false. -/
theorem C8_counterexample :
    ¬ (({ role := "user", content := "My name is X" } : Msg) ∈
      (runTime bigEnv
        (runTime bigEnv [] "My name is X" "T").store
        "what is my name" "T").llmInput) := by
  have hbl : bigReply.content.length = 3100 := by
    show (List.replicate 3100 (Char.ofNat 97)).length = 3100
    rw [List.length_replicate]
  have htl : truncReply.content.length = 2984 := by
    show (List.replicate 2984 (Char.ofNat 97)).length = 2984
    rw [List.length_replicate]
  have hest3 : estTokens [nameMsg, bigReply, askMsg] = 1043 := by
    rw [estTokens]
    simp only [List.map_cons, List.map_nil]
    rw [show String.intercalate " "
          [nameMsg.content, bigReply.content, askMsg.content] =
        nameMsg.content ++ " " ++ bigReply.content ++ " " ++ askMsg.content from by
      simp [String.intercalate, String.intercalate.go]]
    simp only [String.length_append, hbl]
    rw [show nameMsg.content.length = 12 from rfl,
        show askMsg.content.length = 15 from rfl,
        show (" " : String).length = 1 from rfl]
  have hest2 : estTokens [bigReply, askMsg] = 1039 := by
    rw [estTokens]
    simp only [List.map_cons, List.map_nil]
    rw [show String.intercalate " " [bigReply.content, askMsg.content] =
        bigReply.content ++ " " ++ askMsg.content from by
      simp [String.intercalate, String.intercalate.go]]
    simp only [String.length_append, hbl]
    rw [show askMsg.content.length = 15 from rfl,
        show (" " : String).length = 1 from rfl]
  have hgt3 : ¬ (estTokens ([] ++ nameMsg :: [bigReply, askMsg]) ≤ 1000) := by
    show ¬ (estTokens [nameMsg, bigReply, askMsg] ≤ 1000)
    rw [hest3]
    omega
  have hgt2 : ¬ (estTokens ([] ++ bigReply :: [askMsg]) ≤ 1000) := by
    show ¬ (estTokens [bigReply, askMsg] ≤ 1000)
    rw [hest2]
    omega
  have hk : fitTail 1000 [] [askMsg] = [askMsg] := by
    rw [fitTail, if_pos (by decide : estTokens ([] ++ askMsg :: []) ≤ 1000)]
  have htrunc : truncateToFit 1000 [] [askMsg] bigReply = [truncReply] := by
    rw [truncateToFit]
    have ho : (String.intercalate " "
        ((([] : List Msg) ++ ({ bigReply with content := "" } : Msg) :: [askMsg]).map
          (fun x => x.content))).length = 16 := by
      show (String.intercalate " " ["", askMsg.content]).length = 16
      rw [show String.intercalate " " ["", askMsg.content] =
          "" ++ " " ++ askMsg.content from by
        simp [String.intercalate, String.intercalate.go]]
      rfl
    rw [ho]
    show (if 3 * 1000 ≤ 16 then []
          else if bigReply.content.length ≤ 3 * 1000 - 16 then [bigReply]
          else [{ bigReply with
                  content := ⟨bigReply.content.data.drop
                    (bigReply.content.length - (3 * 1000 - 16))⟩ }]) = [truncReply]
    rw [if_neg (by omega), if_neg (by rw [hbl]; omega)]
    rw [show bigReply.content.length - (3 * 1000 - 16) = 116 from by rw [hbl]]
    rw [show bigReply.content.data = List.replicate 3100 (Char.ofNat 97) from rfl]
    rw [List.drop_replicate]
    rfl
  have hinner : fitTail 1000 [] [bigReply, askMsg] = [truncReply, askMsg] := by
    rw [fitTail, if_neg hgt2, hk]
    show (if ([askMsg] : List Msg) = [askMsg]
          then truncateToFit 1000 [] [askMsg] bigReply ++ [askMsg]
          else [askMsg]) = [truncReply, askMsg]
    rw [if_pos rfl, htrunc]
    rfl
  have hne : ([truncReply, askMsg] : List Msg) ≠ [bigReply, askMsg] := by
    intro h
    have h2 : truncReply = bigReply := (List.cons.inj h).1
    rw [h2] at htl
    rw [hbl] at htl
    exact absurd htl (by omega)
  have htrim : trimMessagesModel 1000 [nameMsg, bigReply, askMsg] =
      [truncReply, askMsg] := by
    rw [trimMessagesModel,
        if_neg (by decide : ¬ (nameMsg.role = "system")),
        fitTail, if_neg hgt3, hinner, if_neg hne]
  intro hmem
  have hinput : (runTime bigEnv (runTime bigEnv [] "My name is X" "T").store
      "what is my name" "T").llmInput =
      systemPrompt :: trimMessagesModel 1000 [nameMsg, bigReply, askMsg] := by
    show systemPrompt :: trimMessagesModel 1000
        (getThread "T" (runTime bigEnv [] "My name is X" "T").store ++ [askMsg]) = _
    rw [show getThread "T" (runTime bigEnv [] "My name is X" "T").store =
        [nameMsg, bigReply] from by
      show getThread "T" (setThread [] "T" _) = _
      rw [getThread_setThread]
      rfl]
    rfl
  rw [hinput, htrim] at hmem
  simp only [List.mem_cons, List.not_mem_nil, or_false] at hmem
  rcases hmem with h | h | h
  · exact absurd (congrArg Msg.role h) (by decide)
  · have hc := congrArg (fun m : Msg => m.content.length) h
    dsimp only at hc
    rw [htl] at hc
    exact absurd hc (by decide)
  · exact absurd (congrArg Msg.content h) (by decide)

/-- C9: a retrieval or generation failure inside the RAG node is not
propagated: runRAG completes with ok, the reply is an assistant message
reporting the error inline, and the thread state is extended with the user
turn and that assistant message, ready for future turns. -/
theorem C9_claim (env : RagEnv) (store : List (String × List Msg))
    (userText t e : String)
    (herr : env.ragChain userText (getThread t store) = .error e) :
    runRAG env store userText t =
      .ok ("❌ RAG 检索失败：" ++ e,
        setThread store t (getThread t store ++
          [{ role := "user", content := userText },
           { role := "assistant", content := "❌ RAG 检索失败：" ++ e }])) := by
  have hlast : (getThread t store ++
      [({ role := "user", content := userText } : Msg)]).getLast? =
      some { role := "user", content := userText } := by
    simp
  have hdrop : (getThread t store ++
      [({ role := "user", content := userText } : Msg)]).dropLast =
      getThread t store := by
    simp
  simp only [runRAG, callRAGModel, hlast, hdrop, herr]
  simp

theorem C9_claim_witness :
    runRAG { ragChain := fun _ _ => .error "boom" } [] "hi" "T" =
      .ok ("❌ RAG 检索失败：boom",
        setThread [] "T" (getThread "T" [] ++
          [{ role := "user", content := "hi" },
           { role := "assistant", content := "❌ RAG 检索失败：boom" }])) :=
  C9_claim { ragChain := fun _ _ => .error "boom" } [] "hi" "T" "boom" rfl

end ChatBot
